import Mathlib

/-!
# Model conversion layer of `pkg/application/models.go`

A shallow embedding of the converters between the public update models and the
generated wire types of package `internal`, and of the decoders that turn an
untyped login-flow payload (`map[string]interface{}`) into typed models.

Conventions of the embedding:

* a Go pointer `*T` is `Option T` (`none` is the nil pointer);
* a Go slice is `Slice α`, which keeps the nil slice apart from an empty one;
* a Go map with string keys is `GoMap β`, which keeps the nil map apart from an empty one;
* a Go `interface{}` value is `Value`;
* a function that can stop with a run-time panic yields `Except Panic α`:
  `.ok v` is a normal return of `v`, `.error p` means the call never returns
  and the goroutine panics with `p`.
-/

set_option linter.dupNamespace false

namespace Application

/-! ## Run-time panics -/

/-- The run-time panics the code of this file can raise. -/
inductive Panic where
  /-- Dereference of a nil pointer ("invalid memory address or nil pointer dereference"). -/
  | nilDereference
  /-- A failed single-value type assertion `x.(T)` ("interface conversion"). -/
  | interfaceConversion
  /-- An index expression outside the bounds of its slice ("index out of range"). -/
  | indexOutOfRange
  deriving DecidableEq, Repr

/-! ## Slices and maps -/

/-- A Go slice value: the nil slice, or a (possibly empty) sequence of elements. -/
inductive Slice (α : Type) where
  | nil
  | elems (xs : List α)
  deriving DecidableEq, Repr

namespace Slice

/-- The elements of a slice in index order, which is the order `range` visits them in. -/
def toList {α : Type} : Slice α → List α
  | nil => []
  | elems xs => xs

/-- Go `len(s)`. -/
def len {α : Type} (s : Slice α) : Nat := s.toList.length

/-- Go `make([]T, n)`: a non-nil slice of `n` zero values. -/
def make {α : Type} (zero : α) (n : Nat) : Slice α := elems (List.replicate n zero)

/-- Go `s[i] = v`: panics when `i` is not below `len(s)`. -/
def store {α : Type} (s : Slice α) (i : Nat) (v : α) : Except Panic (Slice α) :=
  if i < s.len then .ok (elems (s.toList.set i v)) else .error .indexOutOfRange

/-- Go `append(s, v)`; appending to the nil slice gives a non-nil slice. -/
def append {α : Type} (s : Slice α) (v : α) : Slice α := elems (s.toList ++ [v])

end Slice

/-- A Go `map[string]T` value: the nil map, or a finite table of entries
(searched from the front, so the first entry of a key is the one that counts). -/
inductive GoMap (β : Type) where
  | nil
  | entries (kvs : List (String × β))

namespace GoMap

/-- The entry stored under key `k`, if there is one. A nil map has no entries. -/
def find? {β : Type} : GoMap β → String → Option β
  | nil, _ => none
  | entries kvs, k => kvs.lookup k

end GoMap

/-! ## Numbers -/

/-- A `float64`: a finite value `(-1)^neg * mant * 2^exp`, an infinity, or a NaN.
The binary64 format has `mant < 2^53` and `-1074 ≤ exp ≤ 971` (see `Float64.IsBinary64`). -/
inductive Float64 where
  | finite (neg : Bool) (mant : Nat) (exp : Int)
  | inf (neg : Bool)
  | nan
  deriving DecidableEq, Repr

namespace Float64

/-- The finite value fits the binary64 format. -/
def IsBinary64 : Float64 → Prop
  | finite _ mant exp => mant < 2 ^ 53 ∧ -1074 ≤ exp ∧ exp ≤ 971
  | _ => True

/-- The magnitude of a finite value, rounded toward zero to a natural number. -/
def truncMagnitude (mant : Nat) (exp : Int) : Nat :=
  if 0 ≤ exp then mant * 2 ^ exp.toNat else mant / 2 ^ (-exp).toNat

/-- The finite value rounded toward zero to an integer; `none` for infinities and NaN. -/
def trunc? : Float64 → Option Int
  | finite neg mant exp =>
      some (if neg then -(truncMagnitude mant exp : Int) else (truncMagnitude mant exp : Int))
  | _ => none

/-- The value `f` is the integer `a` exactly: it is finite, has no fractional part, and equals `a`. -/
def IsInteger : Float64 → Int → Prop
  | finite neg mant exp, a =>
      (0 ≤ exp ∨ 2 ^ (-exp).toNat ∣ mant) ∧
        a = (if neg then -(truncMagnitude mant exp : Int) else (truncMagnitude mant exp : Int))
  | _, _ => False

end Float64

/-- The least value of Go `int` on a 64-bit platform. -/
def minInt : Int := -(2 ^ 63)

/-- The greatest value of Go `int` on a 64-bit platform. -/
def maxInt : Int := 2 ^ 63 - 1

/-- The Go conversion `int(f)` of a `float64` on a 64-bit platform: the fraction is
discarded (rounding toward zero). When the rounded value is not representable in
`int`, or `f` is an infinity or NaN, the conversion still succeeds and the language
leaves the result implementation-dependent; the value given here, the least `int`,
is the one amd64 produces. The conversion never panics. -/
def floatToInt (f : Float64) : Int :=
  match f.trunc? with
  | some t => if minInt ≤ t ∧ t ≤ maxInt then t else minInt
  | none => minInt

/-! ## Dynamic values -/

/-- A Go `interface{}` value as `encoding/json` produces it, together with the typed
nil slice and the typed nil map. `Value.nil` is the nil interface: JSON `null`, and
also what indexing a map yields for a key that is absent. -/
inductive Value where
  | nil
  | bool (b : Bool)
  | float64 (f : Float64)
  | string (s : String)
  | slice (xs : Slice Value)
  | map (m : GoMap Value)

/-- Go `m[k]` on a `map[string]interface{}`: the zero value (the nil interface) when the
key is absent. -/
def GoMap.index (m : GoMap Value) (k : String) : Value :=
  (m.find? k).getD Value.nil

namespace Value

/-- Go `v.(float64)`. -/
def assertFloat64 : Value → Except Panic Float64
  | float64 f => .ok f
  | _ => .error .interfaceConversion

/-- Go `v.(string)`. -/
def assertString : Value → Except Panic String
  | string s => .ok s
  | _ => .error .interfaceConversion

/-- Go `v.([]interface{})`. -/
def assertSlice : Value → Except Panic (Slice Value)
  | slice xs => .ok xs
  | _ => .error .interfaceConversion

/-- Go `v.(map[string]interface{})`. -/
def assertMap : Value → Except Panic (GoMap Value)
  | map m => .ok m
  | _ => .error .interfaceConversion

end Value

/-! ## Wire types of package `internal` -/

namespace Internal

/-- Modelled from the spec: the declaration of `internal.Claim` is not among the sources.
It is the generated wire form of a claim; the converter sets its `Uri`, and the optional
`DisplayName` and `Id` mirror the public `ClaimModel`. -/
structure Claim where
  DisplayName : Option String := none
  Id : Option String := none
  Uri : String := ""
  deriving DecidableEq, Repr

/-- Modelled from the spec: the declaration of `internal.RequestedClaimConfiguration` is not
among the sources. It is one (claim URI, mandatory) pair of a claim configuration, with the
two fields the converter writes. -/
structure RequestedClaimConfiguration where
  Claim : Claim := {}
  Mandatory : Option Bool := none
  deriving DecidableEq, Repr

/-- Modelled from the spec: the declaration of `internal.ClaimConfiguration` is not among the
sources. The converter writes its `RequestedClaims`, a pointer to the ordered claim list. -/
structure ClaimConfiguration where
  RequestedClaims : Option (Slice RequestedClaimConfiguration) := none
  deriving DecidableEq, Repr

/-- Modelled from the spec: the declaration of `internal.PatchApplicationJSONRequestBody` is
not among the sources. It is the partial-update request payload, with the optional fields the
converters of this file write; a field left out of a composite literal is nil. -/
structure PatchApplicationJSONRequestBody where
  Name : Option String := none
  Description : Option String := none
  ImageUrl : Option String := none
  AccessUrl : Option String := none
  LogoutReturnUrl : Option String := none
  ClaimConfiguration : Option ClaimConfiguration := none
  deriving DecidableEq, Repr

/-- Modelled from the spec: the declaration of `internal.Authenticator` is not among the
sources. It is one authenticator option of a login-flow step: authenticator name and
identity-provider reference, both plain strings. -/
structure Authenticator where
  Authenticator : String := ""
  Idp : String := ""
  deriving DecidableEq, Repr

/-- Modelled from the spec: the declaration of `internal.AuthenticationStepModel` is not among
the sources. It is one login-flow step: its id and its ordered list of authenticator options. -/
structure AuthenticationStepModel where
  Id : Int := 0
  Options : Slice Authenticator := Slice.nil
  deriving DecidableEq, Repr

/-- Modelled from the spec: the declaration of `internal.AuthenticationSequenceType` is not
among the sources. It is the flow type enum, a string type. -/
abbrev AuthenticationSequenceType := String

/-- Modelled from the spec: the declaration of `internal.AuthenticationSequence` is not among
the sources. It is the typed login flow: attribute-step id, subject-step id, ordered step list
and flow type, each behind a pointer. -/
structure AuthenticationSequence where
  AttributeStepId : Option Int := none
  Steps : Option (Slice AuthenticationStepModel) := none
  SubjectStepId : Option Int := none
  Type_ : Option AuthenticationSequenceType := none
  deriving DecidableEq, Repr

/-- Modelled from the spec: the declaration of `internal.StatusEnum` is not among the sources.
It is the status enum of a login-flow result, a string type. -/
abbrev StatusEnum := String

/-- Modelled from the spec: the declaration of `internal.LoginFlowResultResponse` is not among
the sources. It is the wire form of a login-flow result: a pointer to the untyped payload and a
pointer to the status. -/
structure LoginFlowResultResponse where
  Data : Option (GoMap Value) := none
  Status : Option StatusEnum := none

end Internal

/-! ## Public models -/

/-- The simplified model for updating basic application information. -/
structure ApplicationBasicInfoUpdateModel where
  Name : Option String := none
  Description : Option String := none
  ImageUrl : Option String := none
  AccessUrl : Option String := none
  LogoutReturnUrl : Option String := none
  deriving DecidableEq, Repr

/-- The public form of a claim. -/
structure ClaimModel where
  DisplayName : Option String := none
  Id : Option String := none
  Uri : String := ""
  deriving DecidableEq, Repr

/-- A requested claim: the claim and its optional mandatory flag. -/
structure RequestedClaimModel where
  Claim : ClaimModel := {}
  Mandatory : Option Bool := none
  deriving DecidableEq, Repr

/-- The model for updating the claim configuration of an application. -/
structure ApplicationClaimConfigurationUpdateModel where
  RequestedClaims : Option (Slice RequestedClaimModel) := none
  deriving DecidableEq, Repr

/-- Type alias `LoginFlowUpdateModel = internal.AuthenticationSequence`. -/
abbrev LoginFlowUpdateModel := Internal.AuthenticationSequence

/-- Type alias `LoginFlowStepModel = internal.AuthenticationStepModel`. -/
abbrev LoginFlowStepModel := Internal.AuthenticationStepModel

/-- Type alias `AuthenticatorModel = internal.Authenticator`. -/
abbrev AuthenticatorModel := Internal.Authenticator

/-- Type alias `LoginFlowTypeModel = internal.AuthenticationSequenceType`. -/
abbrev LoginFlowTypeModel := Internal.AuthenticationSequenceType

/-- The public login-flow result: the decoded update model and the status. -/
structure LoginFlowResultResponseModel where
  Data : Option LoginFlowUpdateModel := none
  Status : Option Internal.StatusEnum := none
  deriving DecidableEq, Repr

/-! ## Converters from update models to the patch body -/

/-- Converts the public `ApplicationBasicInfoUpdateModel` to the patch request body. -/
def convertBasicInfoUpdateModelToApplicationPatchModel
    (model : ApplicationBasicInfoUpdateModel) : Internal.PatchApplicationJSONRequestBody :=
  { Name := model.Name
    Description := model.Description
    ImageUrl := model.ImageUrl
    AccessUrl := model.AccessUrl
    LogoutReturnUrl := model.LogoutReturnUrl }

/-- The body of the loop of the claim converter: `requestedClaims[i] = ...` for the pair
`(i, claim)` that `range` yields. -/
def claimLoopBody (requestedClaims : Slice Internal.RequestedClaimConfiguration)
    (ic : Nat × RequestedClaimModel) : Except Panic (Slice Internal.RequestedClaimConfiguration) :=
  requestedClaims.store ic.1
    { Claim := { Uri := ic.2.Claim.Uri }
      Mandatory := ic.2.Mandatory }

/-- Converts the public `ApplicationClaimConfigurationUpdateModel` to the patch request body. -/
def convertClaimConfigUpdateModelToApplicationPatchModel
    (model : ApplicationClaimConfigurationUpdateModel) :
    Except Panic Internal.PatchApplicationJSONRequestBody :=
  match model.RequestedClaims with
  | none => .ok {}
  | some claims => do
      let requestedClaims ← claims.toList.enum.foldlM claimLoopBody
        (Slice.make ({} : Internal.RequestedClaimConfiguration) claims.len)
      .ok { ClaimConfiguration := some { RequestedClaims := some requestedClaims } }

/-! ## Decoders of the untyped login-flow payload -/

/-- Decodes one authenticator option. -/
def convertToAuthenticatorModel (data : GoMap Value) : Except Panic AuthenticatorModel :=
  match data with
  | .nil => .ok {}
  | .entries _ => do
      let authenticator ← (data.index "authenticator").assertString
      let idp ← (data.index "idp").assertString
      .ok { Authenticator := authenticator, Idp := idp }

/-- The body of the loop of `convertToAuthenticatorList`. -/
def authenticatorLoopBody (authenticators : Slice AuthenticatorModel) (item : Value) :
    Except Panic (Slice AuthenticatorModel) := do
  let authenticator ← item.assertMap
  let decoded ← convertToAuthenticatorModel authenticator
  .ok (authenticators.append decoded)

/-- Decodes the ordered list of authenticator options of a step. -/
def convertToAuthenticatorList (data : Slice Value) : Except Panic (Slice AuthenticatorModel) :=
  match data with
  | .nil => .ok Slice.nil
  | .elems items => items.foldlM authenticatorLoopBody Slice.nil

/-- Decodes one login-flow step. -/
def convertToLoginFlowStepModel (data : GoMap Value) : Except Panic LoginFlowStepModel :=
  match data with
  | .nil => .ok {}
  | .entries _ => do
      let id := floatToInt (← (data.index "id").assertFloat64)
      let options ← convertToAuthenticatorList (← (data.index "options").assertSlice)
      .ok { Id := id, Options := options }

/-- The body of the loop of `convertToLoginFlowStepModelList`. -/
def stepLoopBody (loginFlowStepList : Slice LoginFlowStepModel) (item : Value) :
    Except Panic (Slice LoginFlowStepModel) := do
  let step ← item.assertMap
  let decoded ← convertToLoginFlowStepModel step
  .ok (loginFlowStepList.append decoded)

/-- Decodes the ordered step list of a login flow. -/
def convertToLoginFlowStepModelList (data : Slice Value) : Except Panic (Slice LoginFlowStepModel) :=
  match data with
  | .nil => .ok Slice.nil
  | .elems items => items.foldlM stepLoopBody Slice.nil

/-- Decodes the untyped login-flow payload into the typed update model. -/
def convertToLoginFlowUpdateModel (data : GoMap Value) : Except Panic LoginFlowUpdateModel :=
  match data with
  | .nil => .ok {}
  | .entries _ => do
      let attributeStepId := floatToInt (← (data.index "attributeStepId").assertFloat64)
      let subjectStepId := floatToInt (← (data.index "subjectStepId").assertFloat64)
      let steps ← convertToLoginFlowStepModelList (← (data.index "steps").assertSlice)
      let loginFlowType : LoginFlowTypeModel ← (data.index "type").assertString
      .ok { AttributeStepId := some attributeStepId
            Steps := some steps
            SubjectStepId := some subjectStepId
            Type_ := some loginFlowType }

/-- Converts the wire form of a login-flow result to the public model; `*model.Data` is
dereferenced before anything else. -/
def convertToLoginFlowResultResponseModel (model : Internal.LoginFlowResultResponse) :
    Except Panic LoginFlowResultResponseModel :=
  match model.Data with
  | none => .error .nilDereference
  | some data => do
      let loginFlowUpdateData ← convertToLoginFlowUpdateModel data
      .ok { Data := some loginFlowUpdateData, Status := model.Status }

/-! ## Definitions used to state the properties -/

/-- The output entry the claim loop writes for one input claim. -/
def claimEntry (c : RequestedClaimModel) : Internal.RequestedClaimConfiguration :=
  { Claim := { Uri := c.Claim.Uri }, Mandatory := c.Mandatory }

/-- The common shape of the two decoding loops: decode the item, append the result. -/
def appendLoopBody {γ : Type} (decode : Value → Except Panic γ) (acc : Slice γ) (item : Value) :
    Except Panic (Slice γ) := do
  let decoded ← decode item
  .ok (acc.append decoded)

/-- What the step loop does with one item: assert it is a map, then decode the step. -/
def decodeStepItem (item : Value) : Except Panic LoginFlowStepModel := do
  let step ← item.assertMap
  convertToLoginFlowStepModel step

/-- What the authenticator loop does with one item: assert it is a map, then decode it. -/
def decodeAuthenticatorItem (item : Value) : Except Panic AuthenticatorModel := do
  let authenticator ← item.assertMap
  convertToAuthenticatorModel authenticator

/-- The dynamic type of the value is `float64`. -/
def Value.isFloat64 : Value → Bool
  | .float64 _ => true
  | _ => false

/-- The dynamic type of the value is `string`. -/
def Value.isString : Value → Bool
  | .string _ => true
  | _ => false

/-- An element of an options list the authenticator loop gets through: a map that is nil or
has string-valued `authenticator` and `idp`. -/
def authenticatorItemOk : Value → Bool
  | .map .nil => true
  | .map (.entries kvs) =>
      (GoMap.index (.entries kvs) "authenticator").isString &&
        (GoMap.index (.entries kvs) "idp").isString
  | _ => false

/-- A value of `options` the step decoder gets through: a list of elements that decode. -/
def optionsOk : Value → Bool
  | .slice s => s.toList.all authenticatorItemOk
  | _ => false

/-- An element of a steps list the step loop gets through: a map that is nil or has a
`float64` under `id` and a decodable list under `options`. -/
def stepItemOk : Value → Bool
  | .map .nil => true
  | .map (.entries kvs) =>
      (GoMap.index (.entries kvs) "id").isFloat64 &&
        optionsOk (GoMap.index (.entries kvs) "options")
  | _ => false

/-- A value of `steps` the payload decoder gets through: a list of elements that decode. -/
def stepsOk : Value → Bool
  | .slice s => s.toList.all stepItemOk
  | _ => false

/-- A non-nil payload the decoder gets through. -/
def payloadOk (kvs : List (String × Value)) : Bool :=
  (GoMap.index (.entries kvs) "attributeStepId").isFloat64 &&
    (GoMap.index (.entries kvs) "subjectStepId").isFloat64 &&
    stepsOk (GoMap.index (.entries kvs) "steps") &&
    (GoMap.index (.entries kvs) "type").isString

/-- The options value as the step decoder handles it: assert a list, decode its elements. -/
def decodeOptions (v : Value) : Except Panic (Slice AuthenticatorModel) := do
  let data ← v.assertSlice
  convertToAuthenticatorList data

/-- The steps value as the payload decoder handles it: assert a list, decode its elements. -/
def decodeSteps (v : Value) : Except Panic (Slice LoginFlowStepModel) := do
  let data ← v.assertSlice
  convertToLoginFlowStepModelList data

/-- The dynamic type of the value is `[]interface{}`. -/
def Value.isSlice : Value → Bool
  | .slice _ => true
  | _ => false

/-- The dynamic type of the value is `map[string]interface{}`. -/
def Value.isMap : Value → Bool
  | .map _ => true
  | _ => false

/-- A non-nil login-flow payload from which a required key is missing: one of the four keys of
the payload itself, `id` or `options` of a non-nil step map in its `steps` list, or
`authenticator` or `idp` of a non-nil authenticator map in the `options` list of such a step. -/
inductive MissingRequiredKey (kvs : List (String × Value)) : Prop where
  | attributeStepId (h : kvs.lookup "attributeStepId" = none)
  | subjectStepId (h : kvs.lookup "subjectStepId" = none)
  | steps (h : kvs.lookup "steps" = none)
  | type (h : kvs.lookup "type" = none)
  | stepId (items : List Value) (step : List (String × Value))
      (hsteps : kvs.lookup "steps" = some (.slice (.elems items)))
      (hstep : Value.map (.entries step) ∈ items)
      (h : step.lookup "id" = none)
  | stepOptions (items : List Value) (step : List (String × Value))
      (hsteps : kvs.lookup "steps" = some (.slice (.elems items)))
      (hstep : Value.map (.entries step) ∈ items)
      (h : step.lookup "options" = none)
  | authenticatorName (items options : List Value) (step auth : List (String × Value))
      (hsteps : kvs.lookup "steps" = some (.slice (.elems items)))
      (hstep : Value.map (.entries step) ∈ items)
      (hoptions : step.lookup "options" = some (.slice (.elems options)))
      (hauth : Value.map (.entries auth) ∈ options)
      (h : auth.lookup "authenticator" = none)
  | authenticatorIdp (items options : List Value) (step auth : List (String × Value))
      (hsteps : kvs.lookup "steps" = some (.slice (.elems items)))
      (hstep : Value.map (.entries step) ∈ items)
      (hoptions : step.lookup "options" = some (.slice (.elems options)))
      (hauth : Value.map (.entries auth) ∈ options)
      (h : auth.lookup "idp" = none)

/-- A non-nil login-flow payload in which an expected field is present with the wrong
representation type: `attributeStepId` or `subjectStepId` not a `float64`, `type` not a string,
`steps` not a list, an element of `steps` not a map, the `id` of a step not a `float64` or its
`options` not a list, or the `authenticator` or `idp` of an authenticator not a string. -/
inductive WrongRepresentationType (kvs : List (String × Value)) : Prop where
  | attributeStepId (v : Value) (h : kvs.lookup "attributeStepId" = some v)
      (hv : v.isFloat64 = false)
  | subjectStepId (v : Value) (h : kvs.lookup "subjectStepId" = some v)
      (hv : v.isFloat64 = false)
  | type (v : Value) (h : kvs.lookup "type" = some v) (hv : v.isString = false)
  | steps (v : Value) (h : kvs.lookup "steps" = some v) (hv : v.isSlice = false)
  | stepElement (items : List Value) (item : Value)
      (hsteps : kvs.lookup "steps" = some (.slice (.elems items)))
      (hitem : item ∈ items) (hv : item.isMap = false)
  | stepId (items : List Value) (step : List (String × Value)) (v : Value)
      (hsteps : kvs.lookup "steps" = some (.slice (.elems items)))
      (hstep : Value.map (.entries step) ∈ items)
      (h : step.lookup "id" = some v) (hv : v.isFloat64 = false)
  | stepOptions (items : List Value) (step : List (String × Value)) (v : Value)
      (hsteps : kvs.lookup "steps" = some (.slice (.elems items)))
      (hstep : Value.map (.entries step) ∈ items)
      (h : step.lookup "options" = some v) (hv : v.isSlice = false)
  | authenticatorName (items options : List Value) (step auth : List (String × Value))
      (v : Value)
      (hsteps : kvs.lookup "steps" = some (.slice (.elems items)))
      (hstep : Value.map (.entries step) ∈ items)
      (hoptions : step.lookup "options" = some (.slice (.elems options)))
      (hauth : Value.map (.entries auth) ∈ options)
      (h : auth.lookup "authenticator" = some v) (hv : v.isString = false)
  | authenticatorIdp (items options : List Value) (step auth : List (String × Value))
      (v : Value)
      (hsteps : kvs.lookup "steps" = some (.slice (.elems items)))
      (hstep : Value.map (.entries step) ∈ items)
      (hoptions : step.lookup "options" = some (.slice (.elems options)))
      (hauth : Value.map (.entries auth) ∈ options)
      (h : auth.lookup "idp" = some v) (hv : v.isString = false)

/-- The integer is representable in Go `int`. -/
def InIntRange (a : Int) : Prop := minInt ≤ a ∧ a ≤ maxInt

instance (a : Int) : Decidable (InIntRange a) := by
  unfold InIntRange; infer_instance

/-- The value is an authenticator map with string `authenticator` and `idp`, which are the
two components of `content`. -/
def IsAuthenticatorPayload (item : Value) (content : String × String) : Prop :=
  ∃ kvs : List (String × Value), item = .map (.entries kvs) ∧
    kvs.lookup "authenticator" = some (.string content.1) ∧
    kvs.lookup "idp" = some (.string content.2)

/-- The value is a step map with an integer-valued `id`, the first component of `content`, and
an `options` list of authenticator maps whose contents are, in order, the second component. -/
def IsStepPayload (item : Value) (content : Int × List (String × String)) : Prop :=
  ∃ (kvs : List (String × Value)) (f : Float64) (options : Slice Value),
    item = .map (.entries kvs) ∧
    kvs.lookup "id" = some (.float64 f) ∧ f.IsInteger content.1 ∧
    kvs.lookup "options" = some (.slice options) ∧
    List.Forall₂ IsAuthenticatorPayload options.toList content.2

/-- The non-nil payload is well formed: `attributeStepId` and `subjectStepId` are the
integer-valued numbers `a` and `s`, `type` is the string `t`, and `steps` is a list of step
maps whose contents are, in order, `steps`. -/
def IsLoginFlowPayload (kvs : List (String × Value)) (a s : Int) (t : String)
    (steps : List (Int × List (String × String))) : Prop :=
  ∃ (fa fs : Float64) (items : Slice Value),
    kvs.lookup "attributeStepId" = some (.float64 fa) ∧ fa.IsInteger a ∧
    kvs.lookup "subjectStepId" = some (.float64 fs) ∧ fs.IsInteger s ∧
    kvs.lookup "type" = some (.string t) ∧
    kvs.lookup "steps" = some (.slice items) ∧
    List.Forall₂ IsStepPayload items.toList steps

/-- The content of a decoded authenticator. -/
def authenticatorContent (o : AuthenticatorModel) : String × String := (o.Authenticator, o.Idp)

/-- The content of a decoded step: its id and the contents of its options, in order. -/
def stepContent (st : LoginFlowStepModel) : Int × List (String × String) :=
  (st.Id, st.Options.toList.map authenticatorContent)

/-- An element of an options list as the characterisation words it: a map that is either nil
or has string-valued `authenticator` and `idp`. -/
def IsDecodableAuthenticator (item : Value) : Prop :=
  item = .map .nil ∨
    ∃ (kvs : List (String × Value)) (name idp : String), item = .map (.entries kvs) ∧
      kvs.lookup "authenticator" = some (.string name) ∧ kvs.lookup "idp" = some (.string idp)

/-- An element of a steps list as the characterisation words it: a map that is either nil or
has a numeric `id` and an `options` list every element of which is a decodable authenticator. -/
def IsDecodableStep (item : Value) : Prop :=
  item = .map .nil ∨
    ∃ (kvs : List (String × Value)) (f : Float64) (options : Slice Value),
      item = .map (.entries kvs) ∧
      kvs.lookup "id" = some (.float64 f) ∧ kvs.lookup "options" = some (.slice options) ∧
      ∀ o ∈ options.toList, IsDecodableAuthenticator o

/-- A non-nil payload as the characterisation words it: `attributeStepId` and `subjectStepId`
are present as numbers, `type` is present as a string, `steps` is present as a list, and every
element of `steps` is a decodable step. -/
def IsDecodablePayload (kvs : List (String × Value)) : Prop :=
  ∃ (fa fs : Float64) (t : String) (items : Slice Value),
    kvs.lookup "attributeStepId" = some (.float64 fa) ∧
    kvs.lookup "subjectStepId" = some (.float64 fs) ∧
    kvs.lookup "type" = some (.string t) ∧
    kvs.lookup "steps" = some (.slice items) ∧
    ∀ st ∈ items.toList, IsDecodableStep st

/-- Two requested claims agree in everything but the `DisplayName` and `Id` of their claim:
same URI, same `Mandatory` pointer. -/
def AgreeUpToDisplayNameAndId (c d : RequestedClaimModel) : Prop :=
  c.Claim.Uri = d.Claim.Uri ∧ c.Mandatory = d.Mandatory

/-- Two claim-update models differ at most in the `DisplayName` or `Id` of their claims: both
have no claim list, or both have one, of the same nil-ness and length, whose claims agree
position by position in everything else. -/
def DifferOnlyInDisplayNameOrId :
    ApplicationClaimConfigurationUpdateModel → ApplicationClaimConfigurationUpdateModel → Prop
  | ⟨none⟩, ⟨none⟩ => True
  | ⟨some Slice.nil⟩, ⟨some Slice.nil⟩ => True
  | ⟨some (Slice.elems xs)⟩, ⟨some (Slice.elems ys)⟩ =>
      List.Forall₂ AgreeUpToDisplayNameAndId xs ys
  | _, _ => False

/-! ## The claim loop -/

theorem Slice.store_append_cons {α : Type} (done pad : List α) (z v : α) :
    (Slice.elems (done ++ z :: pad)).store done.length v
      = .ok (Slice.elems ((done ++ [v]) ++ pad)) := by
  simp [Slice.store, Slice.len, Slice.toList]

/-- Loop invariant of the claim converter: after the first `done.length` iterations the slice
holds the converted entries followed by untouched zero values, and the remaining iterations
fill the rest without ever leaving the slice bounds. -/
theorem claimLoop_invariant (rest : List RequestedClaimModel) :
    ∀ (done pad : List Internal.RequestedClaimConfiguration), pad.length = rest.length →
      (rest.enumFrom done.length).foldlM claimLoopBody (Slice.elems (done ++ pad))
        = .ok (Slice.elems (done ++ rest.map claimEntry)) := by
  induction rest with
  | nil =>
      intro done pad h
      have hp : pad = [] := List.length_eq_zero.mp (by simpa using h)
      subst hp
      simp [pure, Except.pure]
  | cons c rest ih =>
      intro done pad h
      cases pad with
      | nil => simp at h
      | cons z pad =>
          have hlen : pad.length = rest.length := by simpa using h
          have hstep : claimLoopBody (Slice.elems (done ++ z :: pad)) (done.length, c)
              = .ok (Slice.elems ((done ++ [claimEntry c]) ++ pad)) := by
            unfold claimLoopBody
            exact Slice.store_append_cons done pad z (claimEntry c)
          have hih := ih (done ++ [claimEntry c]) pad hlen
          simp only [List.length_append, List.length_singleton] at hih
          simp only [List.enumFrom_cons, List.foldlM_cons, hstep, bind, Except.bind, hih]
          simp

/-- The claim loop run on a fresh slice yields the converted entries, in input order. -/
theorem claimLoop_eq_map (claims : Slice RequestedClaimModel) :
    claims.toList.enum.foldlM claimLoopBody
        (Slice.make ({} : Internal.RequestedClaimConfiguration) claims.len)
      = .ok (Slice.elems (claims.toList.map claimEntry)) := by
  have h := claimLoop_invariant claims.toList []
    (List.replicate claims.len ({} : Internal.RequestedClaimConfiguration)) (by simp [Slice.len])
  simpa [List.enum, Slice.make] using h

/-- The claim converter in closed form, for a present claim list. -/
theorem convertClaimConfig_present (claims : Slice RequestedClaimModel) :
    convertClaimConfigUpdateModelToApplicationPatchModel { RequestedClaims := some claims }
      = .ok { ClaimConfiguration :=
                some { RequestedClaims := some (Slice.elems (claims.toList.map claimEntry)) } } := by
  simp [convertClaimConfigUpdateModelToApplicationPatchModel, claimLoop_eq_map, bind, Except.bind]

/-! ## Update models to patch bodies -/

/-- C1: when the update model's `RequestedClaims` is present with `N` entries, the claim
converter returns a patch body whose `ClaimConfiguration.RequestedClaims` is present and has
exactly `N` entries, and the entry at every index `i < N` carries the claim URI and the
`Mandatory` pointer of the input claim at index `i` (an absent `Mandatory` stays absent). -/
theorem claimConfig_preserves_count_and_order
    (model : ApplicationClaimConfigurationUpdateModel) (claims : Slice RequestedClaimModel)
    (h : model.RequestedClaims = some claims) :
    ∃ (body : Internal.PatchApplicationJSONRequestBody) (cc : Internal.ClaimConfiguration)
      (out : Slice Internal.RequestedClaimConfiguration),
      convertClaimConfigUpdateModelToApplicationPatchModel model = .ok body ∧
      body.ClaimConfiguration = some cc ∧
      cc.RequestedClaims = some out ∧
      out.len = claims.len ∧
      ∀ (i : Nat) (c : RequestedClaimModel), claims.toList[i]? = some c →
        ∃ e, out.toList[i]? = some e ∧ e.Claim.Uri = c.Claim.Uri ∧ e.Mandatory = c.Mandatory := by
  obtain ⟨rc⟩ := model
  simp only at h
  subst h
  refine ⟨_, _, _, convertClaimConfig_present claims, rfl, rfl, ?_, ?_⟩
  · simp [Slice.len, Slice.toList]
  · intro i c hc
    refine ⟨claimEntry c, ?_, rfl, rfl⟩
    show (claims.toList.map claimEntry)[i]? = some (claimEntry c)
    simp [List.getElem?_map, hc]

/-- Witness of C1: a list of two claims, the second without a `Mandatory` flag. -/
theorem claimConfig_preserves_count_and_order_witness :
    ∃ (body : Internal.PatchApplicationJSONRequestBody) (cc : Internal.ClaimConfiguration)
      (out : Slice Internal.RequestedClaimConfiguration),
      convertClaimConfigUpdateModelToApplicationPatchModel
          { RequestedClaims := some (Slice.elems
              [ { Claim := { Uri := "http://wso2.org/claims/emailaddress" }, Mandatory := some true },
                { Claim := { Uri := "http://wso2.org/claims/country" }, Mandatory := none } ]) }
        = .ok body ∧
      body.ClaimConfiguration = some cc ∧
      cc.RequestedClaims = some out ∧
      out.len = (Slice.elems
              [ ({ Claim := { Uri := "http://wso2.org/claims/emailaddress" }, Mandatory := some true }
                  : RequestedClaimModel),
                { Claim := { Uri := "http://wso2.org/claims/country" }, Mandatory := none } ]).len ∧
      ∀ (i : Nat) (c : RequestedClaimModel),
        (Slice.elems
              [ ({ Claim := { Uri := "http://wso2.org/claims/emailaddress" }, Mandatory := some true }
                  : RequestedClaimModel),
                { Claim := { Uri := "http://wso2.org/claims/country" }, Mandatory := none } ]).toList[i]?
            = some c →
        ∃ e, out.toList[i]? = some e ∧ e.Claim.Uri = c.Claim.Uri ∧ e.Mandatory = c.Mandatory :=
  claimConfig_preserves_count_and_order _ _ rfl

/-- C2: an update model with no field set converts to the empty patch body: the claim
converter on an absent `RequestedClaims`, and the basic-info converter on a model whose five
fields are all absent, each return the patch body in which every field is nil. -/
theorem empty_update_converts_to_empty_patch :
    convertClaimConfigUpdateModelToApplicationPatchModel { RequestedClaims := none }
        = .ok { Name := none, Description := none, ImageUrl := none, AccessUrl := none,
                LogoutReturnUrl := none, ClaimConfiguration := none } ∧
    convertBasicInfoUpdateModelToApplicationPatchModel
        { Name := none, Description := none, ImageUrl := none, AccessUrl := none,
          LogoutReturnUrl := none }
        = { Name := none, Description := none, ImageUrl := none, AccessUrl := none,
            LogoutReturnUrl := none, ClaimConfiguration := none } :=
  ⟨rfl, rfl⟩

/-- C3: the basic-info converter is a field-for-field copy: `Name`, `Description`, `ImageUrl`,
`AccessUrl` and `LogoutReturnUrl` of the output equal the same-named fields of the input, so
each is present with value `v` exactly when it is present with value `v` in the input. -/
theorem basicInfo_field_for_field_copy (m : ApplicationBasicInfoUpdateModel) :
    (convertBasicInfoUpdateModelToApplicationPatchModel m).Name = m.Name ∧
    (convertBasicInfoUpdateModelToApplicationPatchModel m).Description = m.Description ∧
    (convertBasicInfoUpdateModelToApplicationPatchModel m).ImageUrl = m.ImageUrl ∧
    (convertBasicInfoUpdateModelToApplicationPatchModel m).AccessUrl = m.AccessUrl ∧
    (convertBasicInfoUpdateModelToApplicationPatchModel m).LogoutReturnUrl = m.LogoutReturnUrl :=
  ⟨rfl, rfl, rfl, rfl, rfl⟩

/-- C9: for a model whose `RequestedClaims` is present with zero claims, the claim converter
returns a patch body whose `ClaimConfiguration` is present with a present, non-nil,
zero-length `RequestedClaims` list, and that body differs from the one returned when
`RequestedClaims` is absent. -/
theorem claimConfig_empty_list_differs_from_absent (claims : Slice RequestedClaimModel)
    (h : claims.len = 0) :
    convertClaimConfigUpdateModelToApplicationPatchModel { RequestedClaims := some claims }
        = .ok { ClaimConfiguration := some { RequestedClaims := some (Slice.elems []) } } ∧
    (Slice.elems ([] : List Internal.RequestedClaimConfiguration)).len = 0 ∧
    convertClaimConfigUpdateModelToApplicationPatchModel { RequestedClaims := some claims }
        ≠ convertClaimConfigUpdateModelToApplicationPatchModel { RequestedClaims := none } := by
  have hnil : claims.toList = [] := List.length_eq_zero.mp h
  have hconv := convertClaimConfig_present claims
  rw [hnil] at hconv
  refine ⟨hconv, rfl, ?_⟩
  rw [hconv]
  simp [convertClaimConfigUpdateModelToApplicationPatchModel]

/-- Witness of C9: the non-nil empty claim list. -/
theorem claimConfig_empty_list_differs_from_absent_witness :
    convertClaimConfigUpdateModelToApplicationPatchModel { RequestedClaims := some (Slice.elems []) }
        = .ok { ClaimConfiguration := some { RequestedClaims := some (Slice.elems []) } } ∧
    (Slice.elems ([] : List Internal.RequestedClaimConfiguration)).len = 0 ∧
    convertClaimConfigUpdateModelToApplicationPatchModel { RequestedClaims := some (Slice.elems []) }
        ≠ convertClaimConfigUpdateModelToApplicationPatchModel { RequestedClaims := none } :=
  claimConfig_empty_list_differs_from_absent (Slice.elems []) rfl

/-- C10: the mapping that reads `Name`, `Description`, `ImageUrl`, `AccessUrl` and
`LogoutReturnUrl` back from a patch body is a left inverse of the basic-info converter, so
every set field is preserved with its value, every unset field stays unset, and the converter
is injective. -/
theorem basicInfo_round_trip :
    ∃ reverse : Internal.PatchApplicationJSONRequestBody → ApplicationBasicInfoUpdateModel,
      (∀ b, reverse b = { Name := b.Name, Description := b.Description, ImageUrl := b.ImageUrl,
                          AccessUrl := b.AccessUrl, LogoutReturnUrl := b.LogoutReturnUrl }) ∧
      (∀ m, reverse (convertBasicInfoUpdateModelToApplicationPatchModel m) = m) ∧
      Function.Injective convertBasicInfoUpdateModelToApplicationPatchModel := by
  refine ⟨fun b => { Name := b.Name, Description := b.Description, ImageUrl := b.ImageUrl,
                     AccessUrl := b.AccessUrl, LogoutReturnUrl := b.LogoutReturnUrl },
    fun _ => rfl, fun _ => rfl, ?_⟩
  intro m₁ m₂ h
  obtain ⟨n₁, d₁, i₁, a₁, l₁⟩ := m₁
  obtain ⟨n₂, d₂, i₂, a₂, l₂⟩ := m₂
  simp only [convertBasicInfoUpdateModelToApplicationPatchModel,
    Internal.PatchApplicationJSONRequestBody.mk.injEq] at h
  obtain ⟨h1, h2, h3, h4, h5, -⟩ := h
  subst h1 h2 h3 h4 h5
  rfl

/-! ## Append loops -/

theorem stepLoopBody_eq : stepLoopBody = appendLoopBody decodeStepItem := by
  funext acc item
  simp only [stepLoopBody, appendLoopBody, decodeStepItem, bind, Except.bind]
  cases item.assertMap <;> rfl

theorem authenticatorLoopBody_eq :
    authenticatorLoopBody = appendLoopBody decodeAuthenticatorItem := by
  funext acc item
  simp only [authenticatorLoopBody, appendLoopBody, decodeAuthenticatorItem, bind, Except.bind]
  cases item.assertMap <;> rfl

theorem Slice.toList_foldl_append {γ : Type} (outs : List γ) :
    ∀ init : Slice γ, (outs.foldl Slice.append init).toList = init.toList ++ outs := by
  induction outs with
  | nil => intro init; simp
  | cons o outs ih =>
      intro init
      rw [List.foldl_cons, ih]
      simp [Slice.append, Slice.toList]

/-- An append loop whose items all decode returns the slice grown by the decoded items,
in order. -/
theorem appendLoop_ok {γ : Type} (decode : Value → Except Panic γ) :
    ∀ (items : List Value) (outs : List γ),
      List.Forall₂ (fun item out => decode item = .ok out) items outs →
      ∀ init : Slice γ,
        items.foldlM (appendLoopBody decode) init = .ok (outs.foldl Slice.append init) := by
  intro items outs h
  induction h with
  | nil => intro init; rfl
  | cons hd _ ih =>
      intro init
      simp only [List.foldlM_cons, List.foldl_cons, appendLoopBody, hd, bind, Except.bind]
      exact ih _

/-- An append loop with an item that fails to decode panics, provided the decoder has a
single kind of failure. -/
theorem appendLoop_error {γ : Type} (decode : Value → Except Panic γ) (e : Panic)
    (hkind : ∀ item, (∃ v, decode item = .ok v) ∨ decode item = .error e) :
    ∀ (items : List Value), (∃ item ∈ items, decode item = .error e) →
      ∀ init : Slice γ, items.foldlM (appendLoopBody decode) init = .error e := by
  intro items
  induction items with
  | nil => rintro ⟨_, hmem, _⟩; simp at hmem
  | cons x xs ih =>
      rintro ⟨item, hmem, hitem⟩ init
      rcases hkind x with ⟨v, hv⟩ | hx
      · have hrest : ∃ item ∈ xs, decode item = .error e := by
          rcases List.mem_cons.mp hmem with rfl | hin
          · rw [hv] at hitem; cases hitem
          · exact ⟨item, hin, hitem⟩
        simp only [List.foldlM_cons, appendLoopBody, hv, bind, Except.bind]
        exact ih hrest _
      · simp only [List.foldlM_cons, appendLoopBody, hx, bind, Except.bind]

/-! ## Which payloads decode -/

theorem decodeAuthenticatorItem_spec (item : Value) :
    (authenticatorItemOk item = true ∧ ∃ v, decodeAuthenticatorItem item = .ok v) ∨
    (authenticatorItemOk item = false ∧
      decodeAuthenticatorItem item = .error .interfaceConversion) := by
  cases item with
  | map m =>
      cases m with
      | nil => exact Or.inl ⟨rfl, _, rfl⟩
      | entries kvs =>
          simp only [authenticatorItemOk, decodeAuthenticatorItem, Value.assertMap,
            convertToAuthenticatorModel, bind, Except.bind]
          cases GoMap.index (.entries kvs) "authenticator" <;>
            cases GoMap.index (.entries kvs) "idp" <;>
            simp [Value.isString, Value.assertString]
  | _ => exact Or.inr ⟨rfl, rfl⟩

theorem decodeAuthenticatorItem_kind (item : Value) :
    (∃ v, decodeAuthenticatorItem item = .ok v) ∨
      decodeAuthenticatorItem item = .error .interfaceConversion := by
  rcases decodeAuthenticatorItem_spec item with ⟨_, h⟩ | ⟨_, h⟩
  · exact Or.inl h
  · exact Or.inr h

theorem convertToAuthenticatorList_elems (items : List Value) :
    convertToAuthenticatorList (.elems items)
      = items.foldlM (appendLoopBody decodeAuthenticatorItem) Slice.nil := by
  simp only [convertToAuthenticatorList, authenticatorLoopBody_eq]

/-- Items that all decode give a list of outputs they decode to. -/
theorem exists_outs_of_all {γ : Type} (decode : Value → Except Panic γ) :
    ∀ items : List Value, (∀ item ∈ items, ∃ v, decode item = .ok v) →
      ∃ outs, List.Forall₂ (fun item out => decode item = .ok out) items outs := by
  intro items
  induction items with
  | nil => intro _; exact ⟨[], List.Forall₂.nil⟩
  | cons x xs ih =>
      intro h
      obtain ⟨v, hv⟩ := h x (List.mem_cons_self x xs)
      obtain ⟨outs, houts⟩ := ih (fun y hy => h y (List.mem_cons_of_mem x hy))
      exact ⟨v :: outs, List.Forall₂.cons hv houts⟩

theorem decodeOptions_spec (v : Value) :
    (optionsOk v = true ∧ ∃ out, decodeOptions v = .ok out) ∨
    (optionsOk v = false ∧ decodeOptions v = .error .interfaceConversion) := by
  cases v with
  | slice s =>
      cases s with
      | nil => exact Or.inl ⟨rfl, _, rfl⟩
      | elems items =>
          by_cases hall : ∀ item ∈ items, authenticatorItemOk item = true
          · left
            refine ⟨by simpa [optionsOk, Slice.toList] using hall, ?_⟩
            have hdec : ∀ item ∈ items, ∃ v, decodeAuthenticatorItem item = .ok v := by
              intro item hitem
              rcases decodeAuthenticatorItem_spec item with ⟨_, h⟩ | ⟨hbad, _⟩
              · exact h
              · rw [hall item hitem] at hbad; cases hbad
            obtain ⟨outs, houts⟩ := exists_outs_of_all decodeAuthenticatorItem items hdec
            refine ⟨outs.foldl Slice.append Slice.nil, ?_⟩
            simp only [decodeOptions, Value.assertSlice, bind, Except.bind,
              convertToAuthenticatorList_elems]
            exact appendLoop_ok decodeAuthenticatorItem items outs houts Slice.nil
          · right
            push_neg at hall
            obtain ⟨item, hitem, hbad⟩ := hall
            have hbad2 : authenticatorItemOk item = false := by simpa using hbad
            refine ⟨?_, ?_⟩
            · simp only [optionsOk, Slice.toList, List.all_eq_false]
              exact ⟨item, hitem, by simp [hbad2]⟩
            · simp only [decodeOptions, Value.assertSlice, bind, Except.bind,
                convertToAuthenticatorList_elems]
              refine appendLoop_error decodeAuthenticatorItem _ decodeAuthenticatorItem_kind
                items ⟨item, hitem, ?_⟩ Slice.nil
              rcases decodeAuthenticatorItem_spec item with ⟨hok, _⟩ | ⟨_, herr⟩
              · rw [hok] at hbad2; cases hbad2
              · exact herr
  | _ => exact Or.inr ⟨rfl, rfl⟩

theorem convertToLoginFlowStepModel_entries (kvs : List (String × Value)) :
    convertToLoginFlowStepModel (.entries kvs)
      = (do
          let f ← (GoMap.index (.entries kvs) "id").assertFloat64
          let options ← decodeOptions (GoMap.index (.entries kvs) "options")
          .ok { Id := floatToInt f, Options := options }) := by
  simp only [convertToLoginFlowStepModel, decodeOptions, bind, Except.bind]
  cases (GoMap.index (.entries kvs) "id").assertFloat64 with
  | error e => rfl
  | ok f => cases (GoMap.index (.entries kvs) "options").assertSlice <;> rfl

theorem decodeStepItem_spec (item : Value) :
    (stepItemOk item = true ∧ ∃ v, decodeStepItem item = .ok v) ∨
    (stepItemOk item = false ∧ decodeStepItem item = .error .interfaceConversion) := by
  cases item with
  | map m =>
      cases m with
      | nil => exact Or.inl ⟨rfl, _, rfl⟩
      | entries kvs =>
          have hstep : decodeStepItem (.map (.entries kvs))
              = convertToLoginFlowStepModel (.entries kvs) := rfl
          rw [hstep, convertToLoginFlowStepModel_entries]
          simp only [stepItemOk, bind, Except.bind]
          rcases decodeOptions_spec (GoMap.index (.entries kvs) "options") with
            ⟨hok, out, hout⟩ | ⟨hbad, herr⟩
          · cases GoMap.index (.entries kvs) "id" <;>
              simp [Value.isFloat64, Value.assertFloat64, hok, hout]
          · cases GoMap.index (.entries kvs) "id" <;>
              simp [Value.isFloat64, Value.assertFloat64, hbad, herr]
  | _ => exact Or.inr ⟨rfl, rfl⟩

theorem decodeStepItem_kind (item : Value) :
    (∃ v, decodeStepItem item = .ok v) ∨
      decodeStepItem item = .error .interfaceConversion := by
  rcases decodeStepItem_spec item with ⟨_, h⟩ | ⟨_, h⟩
  · exact Or.inl h
  · exact Or.inr h

theorem convertToLoginFlowStepModelList_elems (items : List Value) :
    convertToLoginFlowStepModelList (.elems items)
      = items.foldlM (appendLoopBody decodeStepItem) Slice.nil := by
  simp only [convertToLoginFlowStepModelList, stepLoopBody_eq]

theorem decodeSteps_spec (v : Value) :
    (stepsOk v = true ∧ ∃ out, decodeSteps v = .ok out) ∨
    (stepsOk v = false ∧ decodeSteps v = .error .interfaceConversion) := by
  cases v with
  | slice s =>
      cases s with
      | nil => exact Or.inl ⟨rfl, _, rfl⟩
      | elems items =>
          by_cases hall : ∀ item ∈ items, stepItemOk item = true
          · left
            refine ⟨by simpa [stepsOk, Slice.toList] using hall, ?_⟩
            have hdec : ∀ item ∈ items, ∃ v, decodeStepItem item = .ok v := by
              intro item hitem
              rcases decodeStepItem_spec item with ⟨_, h⟩ | ⟨hbad, _⟩
              · exact h
              · rw [hall item hitem] at hbad; cases hbad
            obtain ⟨outs, houts⟩ := exists_outs_of_all decodeStepItem items hdec
            refine ⟨outs.foldl Slice.append Slice.nil, ?_⟩
            simp only [decodeSteps, Value.assertSlice, bind, Except.bind,
              convertToLoginFlowStepModelList_elems]
            exact appendLoop_ok decodeStepItem items outs houts Slice.nil
          · right
            push_neg at hall
            obtain ⟨item, hitem, hbad⟩ := hall
            have hbad2 : stepItemOk item = false := by simpa using hbad
            refine ⟨?_, ?_⟩
            · simp only [stepsOk, Slice.toList, List.all_eq_false]
              exact ⟨item, hitem, by simp [hbad2]⟩
            · simp only [decodeSteps, Value.assertSlice, bind, Except.bind,
                convertToLoginFlowStepModelList_elems]
              refine appendLoop_error decodeStepItem _ decodeStepItem_kind
                items ⟨item, hitem, ?_⟩ Slice.nil
              rcases decodeStepItem_spec item with ⟨hok, _⟩ | ⟨_, herr⟩
              · rw [hok] at hbad2; cases hbad2
              · exact herr
  | _ => exact Or.inr ⟨rfl, rfl⟩

theorem convertToLoginFlowUpdateModel_entries (kvs : List (String × Value)) :
    convertToLoginFlowUpdateModel (.entries kvs)
      = (do
          let a ← (GoMap.index (.entries kvs) "attributeStepId").assertFloat64
          let s ← (GoMap.index (.entries kvs) "subjectStepId").assertFloat64
          let steps ← decodeSteps (GoMap.index (.entries kvs) "steps")
          let t ← (GoMap.index (.entries kvs) "type").assertString
          .ok { AttributeStepId := some (floatToInt a)
                Steps := some steps
                SubjectStepId := some (floatToInt s)
                Type_ := some t }) := by
  simp only [convertToLoginFlowUpdateModel, decodeSteps, bind, Except.bind]
  cases (GoMap.index (.entries kvs) "attributeStepId").assertFloat64 with
  | error e => rfl
  | ok a =>
      cases (GoMap.index (.entries kvs) "subjectStepId").assertFloat64 with
      | error e => rfl
      | ok s => cases (GoMap.index (.entries kvs) "steps").assertSlice <;> rfl

/-- A non-nil payload either passes every type assertion and a model is returned, or the
call panics with a failed type assertion. -/
theorem convertToLoginFlowUpdateModel_spec (kvs : List (String × Value)) :
    (payloadOk kvs = true ∧ ∃ v, convertToLoginFlowUpdateModel (.entries kvs) = .ok v) ∨
    (payloadOk kvs = false ∧
      convertToLoginFlowUpdateModel (.entries kvs) = .error .interfaceConversion) := by
  rw [convertToLoginFlowUpdateModel_entries]
  simp only [payloadOk, bind, Except.bind]
  rcases decodeSteps_spec (GoMap.index (.entries kvs) "steps") with
    ⟨hok, out, hout⟩ | ⟨hbad, herr⟩
  · cases GoMap.index (.entries kvs) "attributeStepId" <;>
      cases GoMap.index (.entries kvs) "subjectStepId" <;>
      cases GoMap.index (.entries kvs) "type" <;>
      simp [Value.isFloat64, Value.isString, Value.assertFloat64, Value.assertString, hok, hout]
  · cases GoMap.index (.entries kvs) "attributeStepId" <;>
      cases GoMap.index (.entries kvs) "subjectStepId" <;>
      simp [Value.isFloat64, Value.assertFloat64, hbad, herr]

/-- A non-nil payload that fails the decodability check makes the decoder panic. -/
theorem convertToLoginFlowUpdateModel_panics {kvs : List (String × Value)}
    (h : payloadOk kvs = false) :
    convertToLoginFlowUpdateModel (.entries kvs) = .error .interfaceConversion := by
  rcases convertToLoginFlowUpdateModel_spec kvs with ⟨hok, _⟩ | ⟨_, herr⟩
  · rw [hok] at h; cases h
  · exact herr

/-! ## Payloads that do not decode -/

theorem GoMap.index_entries (kvs : List (String × Value)) (k : String) :
    GoMap.index (.entries kvs) k = (kvs.lookup k).getD Value.nil := rfl

theorem optionsOk_false_of_not_slice {v : Value} (h : v.isSlice = false) :
    optionsOk v = false := by
  cases v <;> simp_all [Value.isSlice, optionsOk]

theorem stepsOk_false_of_not_slice {v : Value} (h : v.isSlice = false) :
    stepsOk v = false := by
  cases v <;> simp_all [Value.isSlice, stepsOk]

theorem authenticatorItemOk_false_of_not_map {v : Value} (h : v.isMap = false) :
    authenticatorItemOk v = false := by
  cases v <;> simp_all [Value.isMap, authenticatorItemOk]

theorem stepItemOk_false_of_not_map {v : Value} (h : v.isMap = false) :
    stepItemOk v = false := by
  cases v <;> simp_all [Value.isMap, stepItemOk]

theorem optionsOk_false_of_mem {options : List Value} {item : Value} (hmem : item ∈ options)
    (h : authenticatorItemOk item = false) : optionsOk (.slice (.elems options)) = false := by
  simp only [optionsOk, Slice.toList, List.all_eq_false]
  exact ⟨item, hmem, by simp [h]⟩

theorem stepsOk_false_of_mem {items : List Value} {item : Value} (hmem : item ∈ items)
    (h : stepItemOk item = false) : stepsOk (.slice (.elems items)) = false := by
  simp only [stepsOk, Slice.toList, List.all_eq_false]
  exact ⟨item, hmem, by simp [h]⟩

theorem payloadOk_false_of_steps {kvs : List (String × Value)} {v : Value}
    (hsteps : kvs.lookup "steps" = some v) (h : stepsOk v = false) : payloadOk kvs = false := by
  simp [payloadOk, GoMap.index_entries, hsteps, h]

theorem stepItemOk_false_of_options {step : List (String × Value)} {v : Value}
    (hoptions : step.lookup "options" = some v) (h : optionsOk v = false) :
    stepItemOk (.map (.entries step)) = false := by
  simp [stepItemOk, GoMap.index_entries, hoptions, h]

theorem payloadOk_false_of_missing {kvs : List (String × Value)} (h : MissingRequiredKey kvs) :
    payloadOk kvs = false := by
  cases h with
  | attributeStepId h => simp [payloadOk, GoMap.index_entries, h, Value.isFloat64]
  | subjectStepId h => simp [payloadOk, GoMap.index_entries, h, Value.isFloat64]
  | steps h => simp [payloadOk, GoMap.index_entries, h, stepsOk]
  | type h => simp [payloadOk, GoMap.index_entries, h, Value.isString]
  | stepId items step hsteps hstep h =>
      refine payloadOk_false_of_steps hsteps (stepsOk_false_of_mem hstep ?_)
      simp [stepItemOk, GoMap.index_entries, h, Value.isFloat64]
  | stepOptions items step hsteps hstep h =>
      refine payloadOk_false_of_steps hsteps (stepsOk_false_of_mem hstep ?_)
      simp [stepItemOk, GoMap.index_entries, h, optionsOk]
  | authenticatorName items options step auth hsteps hstep hoptions hauth h =>
      refine payloadOk_false_of_steps hsteps (stepsOk_false_of_mem hstep
        (stepItemOk_false_of_options hoptions (optionsOk_false_of_mem hauth ?_)))
      simp [authenticatorItemOk, GoMap.index_entries, h, Value.isString]
  | authenticatorIdp items options step auth hsteps hstep hoptions hauth h =>
      refine payloadOk_false_of_steps hsteps (stepsOk_false_of_mem hstep
        (stepItemOk_false_of_options hoptions (optionsOk_false_of_mem hauth ?_)))
      simp [authenticatorItemOk, GoMap.index_entries, h, Value.isString]

theorem payloadOk_false_of_wrong_type {kvs : List (String × Value)}
    (h : WrongRepresentationType kvs) : payloadOk kvs = false := by
  cases h with
  | attributeStepId v h hv => simp [payloadOk, GoMap.index_entries, h, hv]
  | subjectStepId v h hv => simp [payloadOk, GoMap.index_entries, h, hv]
  | type v h hv => simp [payloadOk, GoMap.index_entries, h, hv]
  | steps v h hv => exact payloadOk_false_of_steps h (stepsOk_false_of_not_slice hv)
  | stepElement items item hsteps hitem hv =>
      exact payloadOk_false_of_steps hsteps
        (stepsOk_false_of_mem hitem (stepItemOk_false_of_not_map hv))
  | stepId items step v hsteps hstep h hv =>
      refine payloadOk_false_of_steps hsteps (stepsOk_false_of_mem hstep ?_)
      simp [stepItemOk, GoMap.index_entries, h, hv]
  | stepOptions items step v hsteps hstep h hv =>
      exact payloadOk_false_of_steps hsteps (stepsOk_false_of_mem hstep
        (stepItemOk_false_of_options h (optionsOk_false_of_not_slice hv)))
  | authenticatorName items options step auth v hsteps hstep hoptions hauth h hv =>
      refine payloadOk_false_of_steps hsteps (stepsOk_false_of_mem hstep
        (stepItemOk_false_of_options hoptions (optionsOk_false_of_mem hauth ?_)))
      simp [authenticatorItemOk, GoMap.index_entries, h, hv]
  | authenticatorIdp items options step auth v hsteps hstep hoptions hauth h hv =>
      refine payloadOk_false_of_steps hsteps (stepsOk_false_of_mem hstep
        (stepItemOk_false_of_options hoptions (optionsOk_false_of_mem hauth ?_)))
      simp [authenticatorItemOk, GoMap.index_entries, h, hv]

/-! ## Decoding the login-flow payload: failures -/

/-- C4, as the code has it: the decoders have no error result. Decoding a non-nil login-flow
payload from which a required key is missing (one of `attributeStepId`, `subjectStepId`,
`steps`, `type`; `id` or `options` of a non-nil step map; `authenticator` or `idp` of a non-nil
authenticator map) does not return: `convertToLoginFlowUpdateModel` panics with a failed type
assertion. -/
theorem missing_key_panics (kvs : List (String × Value)) (h : MissingRequiredKey kvs) :
    convertToLoginFlowUpdateModel (.entries kvs) = .error .interfaceConversion :=
  convertToLoginFlowUpdateModel_panics (payloadOk_false_of_missing h)

/-- Witness of C4: a payload whose only step has an `id` but no `options`. -/
theorem missing_key_panics_witness :
    MissingRequiredKey
        [ ("attributeStepId", .float64 (.finite false 1 0)),
          ("subjectStepId", .float64 (.finite false 1 0)),
          ("steps", .slice (.elems [ .map (.entries [("id", .float64 (.finite false 1 0))]) ])),
          ("type", .string "DEFAULT") ] ∧
    convertToLoginFlowUpdateModel (.entries
        [ ("attributeStepId", .float64 (.finite false 1 0)),
          ("subjectStepId", .float64 (.finite false 1 0)),
          ("steps", .slice (.elems [ .map (.entries [("id", .float64 (.finite false 1 0))]) ])),
          ("type", .string "DEFAULT") ])
      = .error .interfaceConversion :=
  have h : MissingRequiredKey
        [ ("attributeStepId", .float64 (.finite false 1 0)),
          ("subjectStepId", .float64 (.finite false 1 0)),
          ("steps", .slice (.elems [ .map (.entries [("id", .float64 (.finite false 1 0))]) ])),
          ("type", .string "DEFAULT") ] :=
    .stepOptions [ .map (.entries [("id", .float64 (.finite false 1 0))]) ]
      [("id", .float64 (.finite false 1 0))] rfl (List.mem_singleton.mpr rfl) rfl
  ⟨h, missing_key_panics _ h⟩

/-- Counterexample to C4 as stated: the empty non-nil payload lacks every required key, and
decoding it panics on the first type assertion; no error value reaches the caller. -/
theorem empty_payload_panics :
    MissingRequiredKey [] ∧
    convertToLoginFlowUpdateModel (.entries []) = .error .interfaceConversion :=
  ⟨.attributeStepId rfl, rfl⟩

/-- C5, as the code has it: the decoders have no error result. Decoding a non-nil login-flow
payload in which an expected field is present with the wrong representation type
(`attributeStepId` or `subjectStepId` not a number, `type` not a string, `steps` not a list, an
element of `steps` not a map, a step's `id` not a number or its `options` not a list, an
authenticator's `authenticator` or `idp` not a string) does not return:
`convertToLoginFlowUpdateModel` panics with a failed type assertion. -/
theorem wrong_type_panics (kvs : List (String × Value)) (h : WrongRepresentationType kvs) :
    convertToLoginFlowUpdateModel (.entries kvs) = .error .interfaceConversion :=
  convertToLoginFlowUpdateModel_panics (payloadOk_false_of_wrong_type h)

/-- Witness of C5: a payload whose only step has an authenticator with a numeric `idp`. -/
theorem wrong_type_panics_witness :
    WrongRepresentationType
        [ ("attributeStepId", .float64 (.finite false 1 0)),
          ("subjectStepId", .float64 (.finite false 1 0)),
          ("steps", .slice (.elems [ .map (.entries
              [ ("id", .float64 (.finite false 1 0)),
                ("options", .slice (.elems [ .map (.entries
                    [ ("authenticator", .string "BasicAuthenticator"),
                      ("idp", .float64 (.finite false 7 0)) ]) ])) ]) ])),
          ("type", .string "DEFAULT") ] ∧
    convertToLoginFlowUpdateModel (.entries
        [ ("attributeStepId", .float64 (.finite false 1 0)),
          ("subjectStepId", .float64 (.finite false 1 0)),
          ("steps", .slice (.elems [ .map (.entries
              [ ("id", .float64 (.finite false 1 0)),
                ("options", .slice (.elems [ .map (.entries
                    [ ("authenticator", .string "BasicAuthenticator"),
                      ("idp", .float64 (.finite false 7 0)) ]) ])) ]) ])),
          ("type", .string "DEFAULT") ])
      = .error .interfaceConversion :=
  have h : WrongRepresentationType
        [ ("attributeStepId", .float64 (.finite false 1 0)),
          ("subjectStepId", .float64 (.finite false 1 0)),
          ("steps", .slice (.elems [ .map (.entries
              [ ("id", .float64 (.finite false 1 0)),
                ("options", .slice (.elems [ .map (.entries
                    [ ("authenticator", .string "BasicAuthenticator"),
                      ("idp", .float64 (.finite false 7 0)) ]) ])) ]) ])),
          ("type", .string "DEFAULT") ] :=
    .authenticatorIdp _ _ _ _ (.float64 (.finite false 7 0)) rfl
      (List.mem_singleton.mpr rfl) rfl (List.mem_singleton.mpr rfl) rfl rfl
  ⟨h, wrong_type_panics _ h⟩

/-- Counterexample to C5 as stated: a payload whose `attributeStepId` is a string; decoding it
panics on the first type assertion, and no error value reaches the caller. -/
theorem string_step_id_panics :
    WrongRepresentationType [("attributeStepId", .string "1")] ∧
    convertToLoginFlowUpdateModel (.entries [("attributeStepId", .string "1")])
      = .error .interfaceConversion :=
  ⟨.attributeStepId (.string "1") rfl rfl, rfl⟩

/-! ## Decoding the login-flow payload: absent payloads -/

/-- C6, at the failing input: for a login-flow result response whose `Data` is the nil pointer,
whatever its `Status`, `convertToLoginFlowResultResponseModel` dereferences `Data` and panics;
no model is returned. -/
theorem nil_data_pointer_panics (status : Option Internal.StatusEnum) :
    convertToLoginFlowResultResponseModel { Data := none, Status := status }
      = .error .nilDereference :=
  rfl

/-- C7: on the nil map `convertToLoginFlowUpdateModel` returns the zero-value model
(`AttributeStepId`, `SubjectStepId`, `Steps` and `Type` all absent), `convertToLoginFlowStepModel`
and `convertToAuthenticatorModel` return their zero-value models, and on the nil slice
`convertToLoginFlowStepModelList` and `convertToAuthenticatorList` return the nil slice, whose
length is zero; none of the five calls panics. -/
theorem nil_payload_decodes_to_zero_value :
    convertToLoginFlowUpdateModel .nil
        = .ok { AttributeStepId := none, Steps := none, SubjectStepId := none, Type_ := none } ∧
    convertToLoginFlowStepModel .nil = .ok { Id := 0, Options := Slice.nil } ∧
    convertToAuthenticatorModel .nil = .ok { Authenticator := "", Idp := "" } ∧
    convertToLoginFlowStepModelList .nil = .ok Slice.nil ∧
    convertToAuthenticatorList .nil = .ok Slice.nil ∧
    (Slice.nil : Slice LoginFlowStepModel).len = 0 ∧
    (Slice.nil : Slice AuthenticatorModel).len = 0 :=
  ⟨rfl, rfl, rfl, rfl, rfl, rfl, rfl⟩

/-! ## Decoding the login-flow payload: well-formed payloads -/

theorem floatToInt_of_isInteger {f : Float64} {a : Int} (h : f.IsInteger a)
    (hr : InIntRange a) : floatToInt f = a := by
  cases f with
  | finite neg mant exp =>
      obtain ⟨_, ha⟩ := h
      obtain ⟨hlo, hhi⟩ := hr
      simp only [floatToInt, Float64.trunc?, ← ha]
      rw [if_pos ⟨hlo, hhi⟩]
  | inf neg => exact absurd h (by simp [Float64.IsInteger])
  | nan => exact absurd h (by simp [Float64.IsInteger])

theorem decodeAuthenticatorItem_of_payload {item : Value} {content : String × String}
    (h : IsAuthenticatorPayload item content) :
    decodeAuthenticatorItem item = .ok { Authenticator := content.1, Idp := content.2 } := by
  obtain ⟨kvs, rfl, hname, hidp⟩ := h
  simp [decodeAuthenticatorItem, Value.assertMap, convertToAuthenticatorModel,
    GoMap.index_entries, hname, hidp, Value.assertString, bind, Except.bind]

/-- A loop over items that decode to `outs`, started on the nil slice, returns a slice whose
elements are `outs`. -/
theorem appendLoop_toList {γ : Type} (decode : Value → Except Panic γ) (items : List Value)
    (outs : List γ) (h : List.Forall₂ (fun item out => decode item = .ok out) items outs) :
    ∃ out : Slice γ, items.foldlM (appendLoopBody decode) Slice.nil = .ok out ∧
      out.toList = outs :=
  ⟨_, appendLoop_ok decode items outs h Slice.nil, by
    rw [Slice.toList_foldl_append]; rfl⟩

theorem convertToAuthenticatorList_of_payload {options : Slice Value}
    {contents : List (String × String)}
    (h : List.Forall₂ IsAuthenticatorPayload options.toList contents) :
    ∃ out : Slice AuthenticatorModel, convertToAuthenticatorList options = .ok out ∧
      out.toList.map authenticatorContent = contents := by
  cases options with
  | nil =>
      have hc : contents = [] := by cases h; rfl
      exact ⟨Slice.nil, rfl, by rw [hc]; rfl⟩
  | elems items =>
      have h2 : List.Forall₂ (fun item out => decodeAuthenticatorItem item = .ok out) items
          (contents.map fun c => ({ Authenticator := c.1, Idp := c.2 } : AuthenticatorModel)) := by
        rw [List.forall₂_map_right_iff]
        exact h.imp fun _ _ hp => decodeAuthenticatorItem_of_payload hp
      obtain ⟨out, hout, hlist⟩ := appendLoop_toList decodeAuthenticatorItem items _ h2
      refine ⟨out, by rw [convertToAuthenticatorList_elems]; exact hout, ?_⟩
      rw [hlist, List.map_map]
      simp [Function.comp_def, authenticatorContent]

theorem decodeStepItem_of_payload {item : Value} {content : Int × List (String × String)}
    (h : IsStepPayload item content) (hr : InIntRange content.1) :
    ∃ out : LoginFlowStepModel, decodeStepItem item = .ok out ∧ stepContent out = content := by
  obtain ⟨kvs, f, options, rfl, hid, hint, hopts, hall⟩ := h
  obtain ⟨out, hout, hlist⟩ := convertToAuthenticatorList_of_payload hall
  refine ⟨{ Id := content.1, Options := out }, ?_, ?_⟩
  · have hstep : decodeStepItem (.map (.entries kvs))
        = convertToLoginFlowStepModel (.entries kvs) := rfl
    rw [hstep, convertToLoginFlowStepModel_entries]
    simp [GoMap.index_entries, hid, hopts, Value.assertFloat64, decodeOptions,
      Value.assertSlice, hout, floatToInt_of_isInteger hint hr, bind, Except.bind]
  · simp [stepContent, hlist]

theorem forall₂_and_right {α β : Type} {R : α → β → Prop} {P : β → Prop} {l : List α}
    {u : List β} (h : List.Forall₂ R l u) (hP : ∀ b ∈ u, P b) :
    List.Forall₂ (fun a b => R a b ∧ P b) l u := by
  induction h with
  | nil => exact List.Forall₂.nil
  | cons hd _ ih =>
      exact List.Forall₂.cons ⟨hd, hP _ (List.mem_cons_self _ _)⟩
        (ih fun b hb => hP b (List.mem_cons_of_mem _ hb))

/-- Items related to contents by a relation that makes each item decode to an output with
that content, decode as a list to outputs with those contents. -/
theorem exists_outs_of_forall₂ {γ κ : Type} (decode : Value → Except Panic γ) (content : γ → κ)
    {R : Value → κ → Prop}
    (hR : ∀ item c, R item c → ∃ out, decode item = .ok out ∧ content out = c) :
    ∀ (items : List Value) (cs : List κ), List.Forall₂ R items cs →
      ∃ outs, List.Forall₂ (fun item out => decode item = .ok out) items outs ∧
        outs.map content = cs := by
  intro items cs h
  induction h with
  | nil => exact ⟨[], List.Forall₂.nil, rfl⟩
  | cons hd _ ih =>
      obtain ⟨out, hout, hc⟩ := hR _ _ hd
      obtain ⟨outs, houts, hcs⟩ := ih
      exact ⟨out :: outs, List.Forall₂.cons hout houts, by simp [hc, hcs]⟩

theorem convertToLoginFlowStepModelList_of_payload {items : Slice Value}
    {contents : List (Int × List (String × String))}
    (h : List.Forall₂ IsStepPayload items.toList contents)
    (hr : ∀ c ∈ contents, InIntRange c.1) :
    ∃ out : Slice LoginFlowStepModel, convertToLoginFlowStepModelList items = .ok out ∧
      out.toList.map stepContent = contents := by
  cases items with
  | nil =>
      have hc : contents = [] := by cases h; rfl
      exact ⟨Slice.nil, rfl, by rw [hc]; rfl⟩
  | elems xs =>
      obtain ⟨outs, houts, hcs⟩ := exists_outs_of_forall₂ decodeStepItem stepContent
        (fun item c (hp : IsStepPayload item c ∧ InIntRange c.1) =>
          decodeStepItem_of_payload hp.1 hp.2) xs contents (forall₂_and_right h hr)
      obtain ⟨out, hout, hlist⟩ := appendLoop_toList decodeStepItem xs outs houts
      exact ⟨out, by rw [convertToLoginFlowStepModelList_elems]; exact hout, by rw [hlist, hcs]⟩

/-- C8, with the range of `int` made explicit: for every well-formed non-nil payload
(`attributeStepId = a`, `subjectStepId = s` and every step `id` integer-valued numbers that
are representable in `int`, `type` the string `t`, `steps` a list of `K` step maps each with an
`options` list of authenticator maps with string `authenticator` and `idp`),
`convertToLoginFlowUpdateModel` returns a model whose `AttributeStepId`, `SubjectStepId` and
`Type` are present and equal `a`, `s` and `t`, and whose `Steps` is present with exactly `K`
entries in payload order, each with the payload step's id and with options of the same length
and order carrying the payload's `authenticator` and `idp` strings. -/
theorem wellFormed_payload_decodes (kvs : List (String × Value)) (a s : Int) (t : String)
    (steps : List (Int × List (String × String)))
    (h : IsLoginFlowPayload kvs a s t steps)
    (ha : InIntRange a) (hs : InIntRange s) (hsteps : ∀ c ∈ steps, InIntRange c.1) :
    ∃ (model : LoginFlowUpdateModel) (stepsOut : Slice LoginFlowStepModel),
      convertToLoginFlowUpdateModel (.entries kvs) = .ok model ∧
      model.AttributeStepId = some a ∧ model.SubjectStepId = some s ∧
      model.Type_ = some t ∧ model.Steps = some stepsOut ∧
      stepsOut.len = steps.length ∧ stepsOut.toList.map stepContent = steps := by
  obtain ⟨fa, fs, items, hfa, hia, hfs, his, htype, hitems, hall⟩ := h
  obtain ⟨out, hout, hlist⟩ := convertToLoginFlowStepModelList_of_payload hall hsteps
  refine ⟨{ AttributeStepId := some a, Steps := some out, SubjectStepId := some s,
            Type_ := some t }, out, ?_, rfl, rfl, rfl, rfl, ?_, hlist⟩
  · rw [convertToLoginFlowUpdateModel_entries]
    simp [GoMap.index_entries, hfa, hfs, htype, hitems, Value.assertFloat64,
      Value.assertString, decodeSteps, Value.assertSlice, hout,
      floatToInt_of_isInteger hia ha, floatToInt_of_isInteger his hs, bind, Except.bind]
  · have hlen := congrArg List.length hlist
    simpa [Slice.len] using hlen

/-- Witness of C8: a flow of one step with one authenticator option. -/
theorem wellFormed_payload_decodes_witness :
    ∃ (model : LoginFlowUpdateModel) (stepsOut : Slice LoginFlowStepModel),
      convertToLoginFlowUpdateModel (.entries
          [ ("attributeStepId", .float64 (.finite false 1 0)),
            ("subjectStepId", .float64 (.finite false 1 0)),
            ("steps", .slice (.elems [ .map (.entries
                [ ("id", .float64 (.finite false 1 0)),
                  ("options", .slice (.elems [ .map (.entries
                      [ ("authenticator", .string "BasicAuthenticator"),
                        ("idp", .string "LOCAL") ]) ])) ]) ])),
            ("type", .string "DEFAULT") ]) = .ok model ∧
      model.AttributeStepId = some 1 ∧ model.SubjectStepId = some 1 ∧
      model.Type_ = some "DEFAULT" ∧ model.Steps = some stepsOut ∧
      stepsOut.len = [((1 : Int), [("BasicAuthenticator", "LOCAL")])].length ∧
      stepsOut.toList.map stepContent = [(1, [("BasicAuthenticator", "LOCAL")])] :=
  wellFormed_payload_decodes _ 1 1 "DEFAULT" [(1, [("BasicAuthenticator", "LOCAL")])]
    ⟨.finite false 1 0, .finite false 1 0, _, rfl, ⟨Or.inl (by decide), rfl⟩, rfl,
      ⟨Or.inl (by decide), rfl⟩, rfl, rfl,
      List.Forall₂.cons
        ⟨_, .finite false 1 0, _, rfl, rfl, ⟨Or.inl (by decide), rfl⟩, rfl,
          List.Forall₂.cons ⟨_, rfl, rfl, rfl⟩ List.Forall₂.nil⟩
        List.Forall₂.nil⟩
    (by decide) (by decide) (by decide)

/-- Counterexample to C8 as stated: the payload is well formed with the integer-valued
`attributeStepId = 2^63`, a binary64 value, yet the decoded `AttributeStepId` is not `2^63`:
the conversion to `int` cannot represent it. -/
theorem wellFormed_payload_step_id_out_of_range :
    IsLoginFlowPayload
        [ ("attributeStepId", .float64 (.finite false (2 ^ 52) 11)),
          ("subjectStepId", .float64 (.finite false 1 0)),
          ("steps", .slice (.elems [])),
          ("type", .string "DEFAULT") ] (2 ^ 63) 1 "DEFAULT" [] ∧
    Float64.IsBinary64 (.finite false (2 ^ 52) 11) ∧
    convertToLoginFlowUpdateModel (.entries
        [ ("attributeStepId", .float64 (.finite false (2 ^ 52) 11)),
          ("subjectStepId", .float64 (.finite false 1 0)),
          ("steps", .slice (.elems [])),
          ("type", .string "DEFAULT") ])
      = .ok { AttributeStepId := some (-(2 ^ 63)), Steps := some Slice.nil,
              SubjectStepId := some 1, Type_ := some "DEFAULT" } ∧
    (some (-(2 ^ 63)) : Option Int) ≠ some (2 ^ 63) := by
  refine ⟨⟨.finite false (2 ^ 52) 11, .finite false 1 0, _, rfl, ⟨Or.inl (by decide), ?_⟩,
    rfl, ⟨Or.inl (by decide), rfl⟩, rfl, rfl, List.Forall₂.nil⟩, ?_, ?_, by decide⟩
  · decide
  · unfold Float64.IsBinary64; decide
  · rfl

/-! ## Fields a converter leaves alone -/

/-- C11: a converter never sets a patch-body field its update model does not cover: for every
input the claim converter returns a body whose `Name`, `Description`, `ImageUrl`, `AccessUrl`
and `LogoutReturnUrl` are absent, and the basic-info converter returns a body whose
`ClaimConfiguration` is absent. -/
theorem converters_leave_uncovered_fields_absent :
    (∀ m : ApplicationClaimConfigurationUpdateModel,
      ∃ body, convertClaimConfigUpdateModelToApplicationPatchModel m = .ok body ∧
        body.Name = none ∧ body.Description = none ∧ body.ImageUrl = none ∧
        body.AccessUrl = none ∧ body.LogoutReturnUrl = none) ∧
    (∀ m : ApplicationBasicInfoUpdateModel,
      (convertBasicInfoUpdateModelToApplicationPatchModel m).ClaimConfiguration = none) := by
  refine ⟨?_, fun _ => rfl⟩
  rintro ⟨_ | claims⟩
  · exact ⟨_, rfl, rfl, rfl, rfl, rfl, rfl⟩
  · exact ⟨_, convertClaimConfig_present claims, rfl, rfl, rfl, rfl, rfl⟩

/-! ## The login-flow result -/

/-- C12: when `Data` of the response is present and `convertToLoginFlowUpdateModel` returns
on the payload it points to, `convertToLoginFlowResultResponseModel` returns a model whose
`Status` is the input `Status` unchanged (an absent status stays absent) and whose `Data` is
present and is the model `convertToLoginFlowUpdateModel` returned. -/
theorem loginFlowResult_keeps_status_and_decodes_data (model : Internal.LoginFlowResultResponse)
    (data : GoMap Value) (decoded : LoginFlowUpdateModel)
    (hdata : model.Data = some data)
    (hdec : convertToLoginFlowUpdateModel data = .ok decoded) :
    convertToLoginFlowResultResponseModel model
      = .ok { Data := some decoded, Status := model.Status } := by
  simp only [convertToLoginFlowResultResponseModel, hdata, hdec, bind, Except.bind]

/-- Witness of C12: a response with status `SUCCESS` and a payload of one step. -/
theorem loginFlowResult_keeps_status_and_decodes_data_witness :
    convertToLoginFlowResultResponseModel
        { Data := some (.entries
            [ ("attributeStepId", .float64 (.finite false 1 0)),
              ("subjectStepId", .float64 (.finite false 1 0)),
              ("steps", .slice (.elems [ .map (.entries
                  [ ("id", .float64 (.finite false 1 0)),
                    ("options", .slice (.elems [ .map (.entries
                        [ ("authenticator", .string "BasicAuthenticator"),
                          ("idp", .string "LOCAL") ]) ])) ]) ])),
              ("type", .string "DEFAULT") ])
          Status := some "SUCCESS" }
      = .ok { Data := some
                { AttributeStepId := some 1
                  Steps := some (Slice.elems
                    [ { Id := 1
                        Options := Slice.elems
                          [ { Authenticator := "BasicAuthenticator", Idp := "LOCAL" } ] } ])
                  SubjectStepId := some 1
                  Type_ := some "DEFAULT" }
              Status := some "SUCCESS" } :=
  loginFlowResult_keeps_status_and_decodes_data _ _ _ rfl rfl

/-! ## Exactly which payloads decode -/

theorem GoMap.index_isFloat64_iff (kvs : List (String × Value)) (k : String) :
    (GoMap.index (.entries kvs) k).isFloat64 = true ↔ ∃ f, kvs.lookup k = some (.float64 f) := by
  rw [GoMap.index_entries]
  cases h : kvs.lookup k with
  | none => simp [Value.isFloat64]
  | some v => cases v <;> simp [Value.isFloat64]

theorem GoMap.index_isString_iff (kvs : List (String × Value)) (k : String) :
    (GoMap.index (.entries kvs) k).isString = true ↔ ∃ t, kvs.lookup k = some (.string t) := by
  rw [GoMap.index_entries]
  cases h : kvs.lookup k with
  | none => simp [Value.isString]
  | some v => cases v <;> simp [Value.isString]

theorem isDecodableAuthenticator_iff (item : Value) :
    IsDecodableAuthenticator item ↔ authenticatorItemOk item = true := by
  cases item with
  | map m =>
      cases m with
      | nil => simp [IsDecodableAuthenticator, authenticatorItemOk]
      | entries kvs =>
          simp only [IsDecodableAuthenticator, authenticatorItemOk, Bool.and_eq_true,
            GoMap.index_isString_iff]
          constructor
          · rintro (h | ⟨kvs2, name, idp, heq, hname, hidp⟩)
            · cases h
            · cases heq
              exact ⟨⟨name, hname⟩, ⟨idp, hidp⟩⟩
          · rintro ⟨⟨name, hname⟩, ⟨idp, hidp⟩⟩
            exact Or.inr ⟨kvs, name, idp, rfl, hname, hidp⟩
  | _ => simp [IsDecodableAuthenticator, authenticatorItemOk]

theorem optionsOk_index_iff (kvs : List (String × Value)) :
    optionsOk (GoMap.index (.entries kvs) "options") = true ↔
      ∃ options : Slice Value, kvs.lookup "options" = some (.slice options) ∧
        ∀ o ∈ options.toList, IsDecodableAuthenticator o := by
  rw [GoMap.index_entries]
  cases h : kvs.lookup "options" with
  | none => simp [optionsOk]
  | some v =>
      cases v with
      | slice s => simp [optionsOk, List.all_eq_true, isDecodableAuthenticator_iff]
      | _ => simp [optionsOk]

theorem isDecodableStep_iff (item : Value) :
    IsDecodableStep item ↔ stepItemOk item = true := by
  cases item with
  | map m =>
      cases m with
      | nil => simp [IsDecodableStep, stepItemOk]
      | entries kvs =>
          simp only [IsDecodableStep, stepItemOk, Bool.and_eq_true,
            GoMap.index_isFloat64_iff, optionsOk_index_iff]
          constructor
          · rintro (h | ⟨kvs2, f, options, heq, hid, hopts, hall⟩)
            · cases h
            · cases heq
              exact ⟨⟨f, hid⟩, options, hopts, hall⟩
          · rintro ⟨⟨f, hid⟩, options, hopts, hall⟩
            exact Or.inr ⟨kvs, f, options, rfl, hid, hopts, hall⟩
  | _ => simp [IsDecodableStep, stepItemOk]

theorem stepsOk_index_iff (kvs : List (String × Value)) :
    stepsOk (GoMap.index (.entries kvs) "steps") = true ↔
      ∃ items : Slice Value, kvs.lookup "steps" = some (.slice items) ∧
        ∀ st ∈ items.toList, IsDecodableStep st := by
  rw [GoMap.index_entries]
  cases h : kvs.lookup "steps" with
  | none => simp [stepsOk]
  | some v =>
      cases v with
      | slice s => simp [stepsOk, List.all_eq_true, isDecodableStep_iff]
      | _ => simp [stepsOk]

theorem isDecodablePayload_iff (kvs : List (String × Value)) :
    IsDecodablePayload kvs ↔ payloadOk kvs = true := by
  simp only [IsDecodablePayload, payloadOk, Bool.and_eq_true, GoMap.index_isFloat64_iff,
    GoMap.index_isString_iff, stepsOk_index_iff]
  constructor
  · rintro ⟨fa, fs, t, items, ha, hs, ht, hitems, hall⟩
    exact ⟨⟨⟨⟨fa, ha⟩, ⟨fs, hs⟩⟩, items, hitems, hall⟩, ⟨t, ht⟩⟩
  · rintro ⟨⟨⟨⟨fa, ha⟩, ⟨fs, hs⟩⟩, items, hitems, hall⟩, ⟨t, ht⟩⟩
    exact ⟨fa, fs, t, items, ha, hs, ht, hitems, hall⟩

/-- C13: for every non-nil payload map, `convertToLoginFlowUpdateModel` returns a model if and
only if `attributeStepId` and `subjectStepId` are present as numbers, `type` is present as a
string, `steps` is present as a list, and every element of `steps` is a map that is nil or has
a numeric `id` and an `options` list whose elements are maps that are nil or have string-valued
`authenticator` and `idp`; in every other case the call panics on a failed type assertion. -/
theorem loginFlow_decodes_iff_decodable (kvs : List (String × Value)) :
    ((∃ model, convertToLoginFlowUpdateModel (.entries kvs) = .ok model) ↔
        IsDecodablePayload kvs) ∧
    (¬ IsDecodablePayload kvs →
      convertToLoginFlowUpdateModel (.entries kvs) = .error .interfaceConversion) := by
  rw [isDecodablePayload_iff]
  rcases convertToLoginFlowUpdateModel_spec kvs with ⟨hok, hret⟩ | ⟨hbad, herr⟩
  · exact ⟨⟨fun _ => hok, fun _ => hret⟩, fun hn => absurd hok hn⟩
  · refine ⟨⟨?_, fun h => ?_⟩, fun _ => herr⟩
    · rintro ⟨model, hmodel⟩
      rw [herr] at hmodel
      cases hmodel
    · rw [hbad] at h
      cases h

/-! ## What the claim converter discards -/

theorem claimEntry_eq_of_agree {c d : RequestedClaimModel}
    (h : AgreeUpToDisplayNameAndId c d) : claimEntry c = claimEntry d := by
  obtain ⟨huri, hmand⟩ := h
  simp only [claimEntry, huri, hmand]

theorem map_claimEntry_eq_of_agree {xs ys : List RequestedClaimModel}
    (h : List.Forall₂ AgreeUpToDisplayNameAndId xs ys) :
    xs.map claimEntry = ys.map claimEntry := by
  induction h with
  | nil => rfl
  | cons hd _ ih => simp only [List.map_cons, claimEntry_eq_of_agree hd, ih]

theorem convertClaimConfig_eq_of_differOnly {m₁ m₂ : ApplicationClaimConfigurationUpdateModel}
    (h : DifferOnlyInDisplayNameOrId m₁ m₂) :
    convertClaimConfigUpdateModelToApplicationPatchModel m₁
      = convertClaimConfigUpdateModelToApplicationPatchModel m₂ := by
  obtain ⟨_ | s₁⟩ := m₁ <;> obtain ⟨_ | s₂⟩ := m₂
  · rfl
  · exact absurd h (by simp [DifferOnlyInDisplayNameOrId])
  · exact absurd h (by simp [DifferOnlyInDisplayNameOrId])
  · cases s₁ with
    | nil =>
        cases s₂ with
        | nil => rfl
        | elems ys => exact absurd h (by simp [DifferOnlyInDisplayNameOrId])
    | elems xs =>
        cases s₂ with
        | nil => exact absurd h (by simp [DifferOnlyInDisplayNameOrId])
        | elems ys =>
            have hmap : xs.map claimEntry = ys.map claimEntry :=
              map_claimEntry_eq_of_agree (by simpa [DifferOnlyInDisplayNameOrId] using h)
            rw [convertClaimConfig_present, convertClaimConfig_present]
            simp only [Slice.toList, hmap]

/-- Two update models with one claim each, the same but for the claim's `DisplayName`, convert
to the same result. -/
theorem convertClaimConfig_collision :
    convertClaimConfigUpdateModelToApplicationPatchModel
        { RequestedClaims := some (Slice.elems
            [ { Claim := { DisplayName := some "Email", Uri := "http://wso2.org/claims/emailaddress" },
                Mandatory := some true } ]) }
      = convertClaimConfigUpdateModelToApplicationPatchModel
        { RequestedClaims := some (Slice.elems
            [ { Claim := { DisplayName := none, Uri := "http://wso2.org/claims/emailaddress" },
                Mandatory := some true } ]) } ∧
    ({ RequestedClaims := some (Slice.elems
            [ { Claim := { DisplayName := some "Email", Uri := "http://wso2.org/claims/emailaddress" },
                Mandatory := some true } ]) } : ApplicationClaimConfigurationUpdateModel)
      ≠ { RequestedClaims := some (Slice.elems
            [ { Claim := { DisplayName := none, Uri := "http://wso2.org/claims/emailaddress" },
                Mandatory := some true } ]) } :=
  ⟨rfl, by decide⟩

/-- C14: the claim converter discards the claim's `DisplayName` and `Id`: for every present
claim list each output entry's `Claim` has `Id` and `DisplayName` absent and only `Uri` taken
from the input; two update models that differ only in the `DisplayName` or `Id` of their
claims convert to equal patch bodies; the converter is therefore not injective, and no reverse
mapping recovers the update model from its patch body. -/
theorem claimConfig_discards_displayName_and_id :
    (∀ claims : Slice RequestedClaimModel,
      ∃ out : Slice Internal.RequestedClaimConfiguration,
        convertClaimConfigUpdateModelToApplicationPatchModel { RequestedClaims := some claims }
          = .ok { ClaimConfiguration := some { RequestedClaims := some out } } ∧
        ∀ e ∈ out.toList, e.Claim.Id = none ∧ e.Claim.DisplayName = none) ∧
    (∀ m₁ m₂ : ApplicationClaimConfigurationUpdateModel, DifferOnlyInDisplayNameOrId m₁ m₂ →
      convertClaimConfigUpdateModelToApplicationPatchModel m₁
        = convertClaimConfigUpdateModelToApplicationPatchModel m₂) ∧
    ¬ Function.Injective convertClaimConfigUpdateModelToApplicationPatchModel ∧
    ¬ ∃ reverse : Except Panic Internal.PatchApplicationJSONRequestBody →
          ApplicationClaimConfigurationUpdateModel,
        ∀ m, reverse (convertClaimConfigUpdateModelToApplicationPatchModel m) = m := by
  have hninj : ¬ Function.Injective convertClaimConfigUpdateModelToApplicationPatchModel :=
    fun hinj => convertClaimConfig_collision.2 (hinj convertClaimConfig_collision.1)
  refine ⟨fun claims => ⟨_, convertClaimConfig_present claims, ?_⟩,
    fun _ _ h => convertClaimConfig_eq_of_differOnly h, hninj, ?_⟩
  · intro e he
    obtain ⟨c, _, rfl⟩ := List.mem_map.mp he
    exact ⟨rfl, rfl⟩
  · rintro ⟨reverse, hrev⟩
    exact hninj (Function.LeftInverse.injective hrev)

/-- Witness of C14: two models whose single claim differs in `DisplayName` and `Id` only differ
in the sense of the theorem, and convert to equal results. -/
theorem claimConfig_discards_displayName_and_id_witness :
    DifferOnlyInDisplayNameOrId
        { RequestedClaims := some (Slice.elems
            [ { Claim := { DisplayName := some "Country", Id := some "c1",
                           Uri := "http://wso2.org/claims/country" },
                Mandatory := none } ]) }
        { RequestedClaims := some (Slice.elems
            [ { Claim := { Uri := "http://wso2.org/claims/country" }, Mandatory := none } ]) } ∧
    convertClaimConfigUpdateModelToApplicationPatchModel
        { RequestedClaims := some (Slice.elems
            [ { Claim := { DisplayName := some "Country", Id := some "c1",
                           Uri := "http://wso2.org/claims/country" },
                Mandatory := none } ]) }
      = convertClaimConfigUpdateModelToApplicationPatchModel
        { RequestedClaims := some (Slice.elems
            [ { Claim := { Uri := "http://wso2.org/claims/country" }, Mandatory := none } ]) } :=
  have h : DifferOnlyInDisplayNameOrId
        { RequestedClaims := some (Slice.elems
            [ { Claim := { DisplayName := some "Country", Id := some "c1",
                           Uri := "http://wso2.org/claims/country" },
                Mandatory := none } ]) }
        { RequestedClaims := some (Slice.elems
            [ { Claim := { Uri := "http://wso2.org/claims/country" }, Mandatory := none } ]) } :=
    List.Forall₂.cons ⟨rfl, rfl⟩ List.Forall₂.nil
  ⟨h, claimConfig_discards_displayName_and_id.2.1 _ _ h⟩

end Application
